import Mathlib

/-!
Verification of the GravityCollector client (bradyzp/GravityCollector-Client)
against its natural-language specification.

The Python source (src/helpers.py, src/client.py, src/gravcollector_client.py)
is embedded shallowly:

* Python `float` values are modelled as exact rationals (`ℚ`).  Every numeric
  claim checked here compares the arithmetic expression the code computes with
  the expression the spec states, and those expressions contain only values and
  operations on which the rational model and IEEE evaluation behave alike for
  the inputs exercised (small integers, short decimal literals).
* Python's `int(...)` and `float(...)` string casts are modelled by `pyInt?`
  and `pyFloat?`, covering the finite decimal fragment of Python's grammar:
  optional surrounding whitespace, optional sign, decimal digits, an optional
  fraction and an optional exponent.  `inf`/`nan`, underscore digit separators
  and non-ASCII digits lie outside the model.
* Python dicts are modelled as association lists with Python's
  insertion-ordered update semantics (`dinsert`, `dlookup`).
* Fallible operations return `Option` / `Except`; an uncaught Python exception
  is an `Except.error`.
-/

namespace GravCollector

/-- Decidable equality for `Except` results (used to evaluate the embedded
fallible operations on concrete inputs). -/
instance {ε α : Type} [DecidableEq ε] [DecidableEq α] : DecidableEq (Except ε α) := fun a b =>
  match a, b with
  | Except.ok x, Except.ok y =>
    if h : x = y then Decidable.isTrue (by rw [h]) else
      Decidable.isFalse (fun hh => by cases hh; exact h rfl)
  | Except.error x, Except.error y =>
    if h : x = y then Decidable.isTrue (by rw [h]) else
      Decidable.isFalse (fun hh => by cases hh; exact h rfl)
  | Except.ok _, Except.error _ => Decidable.isFalse (fun hh => by cases hh)
  | Except.error _, Except.ok _ => Decidable.isFalse (fun hh => by cases hh)

/-- A Python value as it appears in an extracted reading or a parsed meter
configuration: a text string, an integer, or a float (modelled as `ℚ`). -/
inductive PyVal where
  | str (s : String)
  | int (n : Int)
  | float (q : ℚ)
  deriving DecidableEq

/-- Addition of rationals through `mkRat` (kernel-computable; proved equal to
`Rat` addition in `qadd_eq` below). -/
def qadd (a b : ℚ) : ℚ := mkRat (a.num * b.den + b.num * a.den) (a.den * b.den)

/-- Multiplication of rationals through `mkRat` (kernel-computable; proved
equal to `Rat` multiplication in `qmul_eq` below). -/
def qmul (a b : ℚ) : ℚ := mkRat (a.num * b.num) (a.den * b.den)

/-- Model of Python's `str.lower()` (the field and configuration names this
code lowercases are ASCII). -/
def pyLower (s : String) : String := String.mk (s.data.map Char.toLower)

/-- Whitespace strip as performed by Python's `int(...)`/`float(...)` casts
(leading and trailing whitespace is ignored). -/
def pyStripWS (cs : List Char) : List Char :=
  ((cs.dropWhile Char.isWhitespace).reverse.dropWhile Char.isWhitespace).reverse

/-- Value of a list of decimal digit characters. -/
def digitsToNat (cs : List Char) : Nat :=
  cs.foldl (fun a c => 10 * a + (c.toNat - 48)) 0

/-- Parse a non-empty all-digit character list. -/
def parseDigits? (cs : List Char) : Option Nat :=
  if cs.isEmpty then none
  else if cs.all Char.isDigit then some (digitsToNat cs)
  else none

/-- Strip an optional leading sign; returns (isNegative, rest). -/
def pySign : List Char → (Bool × List Char)
  | '+' :: r => (false, r)
  | '-' :: r => (true, r)
  | r => (false, r)

/-- Model of Python's `int(token)` on a string token: optional surrounding
whitespace, optional sign, one or more decimal digits.  `none` models a raised
`ValueError`. -/
def pyInt? (s : String) : Option Int :=
  let cs := pyStripWS s.data
  let sb := pySign cs
  match parseDigits? sb.2 with
  | none => none
  | some n => some (if sb.1 then -(n : Int) else (n : Int))

/-- Parse the exponent part of a float literal: empty, or `e`/`E`, an optional
sign and digits. -/
def parseExp? : List Char → Option Int
  | [] => some 0
  | c :: r =>
    if c = 'e' ∨ c = 'E' then
      let sb := pySign r
      match parseDigits? sb.2 with
      | none => none
      | some n => some (if sb.1 then -(n : Int) else (n : Int))
    else none

/-- Model of Python's `float(token)` on a string token (finite decimal
literals: optional whitespace and sign, digits with an optional fraction, and
an optional exponent).  `none` models a raised `ValueError`. -/
def pyFloat? (s : String) : Option ℚ :=
  let cs := pyStripWS s.data
  let sb := pySign cs
  let ip := sb.2.takeWhile Char.isDigit
  let r1 := sb.2.dropWhile Char.isDigit
  let fr :=
    match r1 with
    | '.' :: r => (r.takeWhile Char.isDigit, r.dropWhile Char.isDigit)
    | _ => ([], r1)
  if ip.isEmpty && fr.1.isEmpty then none
  else
    match parseExp? fr.2 with
    | none => none
    | some e =>
      let m : Nat := digitsToNat (ip ++ fr.1)
      let num : Int := if sb.1 then -(m : Int) else (m : Int)
      if 0 ≤ e then some (mkRat (num * ((10 : Nat) ^ e.toNat : Nat)) ((10 : Nat) ^ fr.1.length))
      else some (mkRat num ((10 : Nat) ^ (fr.1.length + (-e).toNat)))

/-- Split a character list at every occurrence of `sep` (Python
`str.split(sep)` for a one-character separator: no merging of adjacent
separators, an empty input yields one empty token). -/
def splitChar (sep : Char) : List Char → List (List Char)
  | [] => [[]]
  | c :: rest =>
    match splitChar sep rest with
    | [] => [[]]
    | g :: gs => if c = sep then [] :: g :: gs else (c :: g) :: gs

/-- Model of Python's `data.split(',')`. -/
def pySplit (s : String) : List String :=
  (splitChar ',' s.data).map String.mk

/-- `helpers.convert_gps_time`: GPS weeks + seconds-of-week to a UNIX
timestamp, `gps_delta + (gpsweek * gpsweek_cf + gpsweekseconds)`. -/
def convert_gps_time (gpsweek : Int) (gpsweekseconds : ℚ) : ℚ :=
  let gps_delta : ℚ := mkRat 315964800 1
  let gpsweek_cf : ℚ := mkRat 604800 1
  let gps_ticks : ℚ := qadd (qmul (mkRat gpsweek 1) gpsweek_cf) gpsweekseconds
  qadd gps_delta gps_ticks

/-- `helpers._marine_fieldmap`. -/
def _marine_fieldmap : List String :=
  ["header", "gravity", "long_acc", "cross_acc", "beam",
   "s_temperature", "pressure", "e_temperature",
   "vcc", "ve", "al", "ax", "status", "checksum",
   "latitude", "longitude", "speed", "course", "datetime"]

/-- `helpers._airborne_fieldmap`. -/
def _airborne_fieldmap : List String :=
  ["header", "gravity", "long_acc", "cross_acc", "beam",
   "s_temperature", "status", "pressure", "e_temperature",
   "latitude", "longitude"]

/-- Per-field cast of a raw token, embedding `helpers._field_casts.get(field, int)`
together with the surrounding `try/except ValueError` fallback to the raw
token.  `mtime` is the value of `helpers.convert_marine_time` (which never
raises: on a malformed pattern it falls back to the current wall-clock time,
so it is modelled as an arbitrary total function). -/
def castField (mtime : String → ℚ) (field tok : String) : PyVal :=
  if field = "header" then PyVal.str tok
  else if field = "latitude" ∨ field = "longitude" ∨ field = "speed" ∨ field = "course" then
    match pyFloat? tok with
    | some q => PyVal.float q
    | none => PyVal.str tok
  else if field = "datetime" then PyVal.float (mtime tok)
  else
    match pyInt? tok with
    | some n => PyVal.int n
    | none => PyVal.str tok

/-- First-match lookup in an association list (Python `d[k]` / `d.get(k)`). -/
def dlookup {α : Type} : List (String × α) → String → Option α
  | [], _ => none
  | kv :: rest, key => if kv.1 = key then some kv.2 else dlookup rest key

/-- Python dict assignment `d[k] = v`: replace in place if the key is present,
append otherwise. -/
def dinsert {α : Type} : List (String × α) → String → α → List (String × α)
  | [], k, v => [(k, v)]
  | kv :: rest, k, v => if kv.1 = k then (k, v) :: rest else kv :: dinsert rest k v

/-- The common `for i, field in enumerate(fieldmap)` loop of
`helpers._extract_airborne_fields` / `helpers._extract_marine_fields`:
for each wanted field, cast `data[i]`, keeping the raw token on a failed
numeric cast (`except ValueError`) and aborting the whole extraction when the
token is missing (`except IndexError`).  The marine variant stores the key as
written (`lowerKey = false`), the airborne variant stores `field.lower()`
(`lowerKey = true`); both look the cast up by the lowercased name. -/
def extractFields (mtime : String → ℚ) (lowerKey : Bool) (toks fields : List String) :
    List String → Nat → List (String × PyVal) → Option (List (String × PyVal))
  | [], _, acc => some acc
  | f :: fs, i, acc =>
    if pyLower f ∈ fields then
      match toks.get? i with
      | none => none
      | some tok =>
        extractFields mtime lowerKey toks fields fs (i + 1)
          (dinsert acc (if lowerKey then pyLower f else f) (castField mtime (pyLower f) tok))
    else extractFields mtime lowerKey toks fields fs (i + 1) acc

/-- `helpers._extract_marine_fields`: split on commas, require exactly
`len(_marine_fieldmap)` tokens, then run the per-field extraction loop. -/
def _extract_marine_fields (mtime : String → ℚ) (data : String) (fields : List String) :
    Option (List (String × PyVal)) :=
  let toks := pySplit data
  if toks.length = _marine_fieldmap.length then
    extractFields mtime false toks fields _marine_fieldmap 0 []
  else none

/-- `helpers._extract_airborne_fields`: split on commas, require exactly
`len(_airborne_fieldmap) + 2` tokens, pop `gpsweekseconds` (float) and
`gpsweek` (int) from the end (a failed cast returns `None`), run the
per-field loop on the remaining tokens, and finally store the GPS-derived
timestamp under key `datetime` unconditionally. -/
def _extract_airborne_fields (mtime : String → ℚ) (data : String) (fields : List String) :
    Option (List (String × PyVal)) :=
  let toks := pySplit data
  if toks.length = _airborne_fieldmap.length + 2 then
    match pyFloat? (toks.getLastD ("")) with
    | none => none
    | some gpssecond =>
      match pyInt? (toks.dropLast.getLastD ("")) with
      | none => none
      | some gpsweek =>
        match extractFields mtime true (toks.dropLast.dropLast) fields _airborne_fieldmap 0 [] with
        | none => none
        | some extracted =>
          some (dinsert extracted ("datetime") (PyVal.float (convert_gps_time gpsweek gpssecond)))
  else none

/-- The filtered, positionally-cast reading the extraction loop produces:
for each (field, token) pair in layout order, the wanted fields with their
per-field cast. -/
def selectFields (mtime : String → ℚ) (fields : List String) :
    List (String × String) → List (String × PyVal)
  | [] => []
  | ft :: rest =>
    (if ft.1 ∈ fields then [(ft.1, castField mtime ft.1 ft.2)] else []) ++
      selectFields mtime fields rest

/-- `helpers.ILLEGAL_CHARS = list(chain(range(0, 32), [255, 256]))`. -/
def ILLEGAL_CHARS : List Nat := List.range 32 ++ [255, 256]

/-- Is `b` a UTF-8 continuation byte (`0x80`–`0xBF`)? -/
def isCont (b : Nat) : Bool := 0x80 ≤ b && b ≤ 0xBF

/-- Valid second byte of a three-byte UTF-8 sequence for lead byte `b`
(the constrained ranges reject overlong and surrogate encodings, as CPython
does). -/
def cont3 (b b2 : Nat) : Bool :=
  if b = 0xE0 then 0xA0 ≤ b2 && b2 ≤ 0xBF
  else if b = 0xED then 0x80 ≤ b2 && b2 ≤ 0x9F
  else isCont b2

/-- Valid second byte of a four-byte UTF-8 sequence for lead byte `b`. -/
def cont4 (b b2 : Nat) : Bool :=
  if b = 0xF0 then 0x90 ≤ b2 && b2 ≤ 0xBF
  else if b = 0xF4 then 0x80 ≤ b2 && b2 ≤ 0x8F
  else isCont b2

/-- Fuel-indexed body of `utf8Ignore` (structural recursion on the fuel so
the definition computes inside the kernel; each step consumes at least one
byte, so fuel equal to the list length suffices). -/
def utf8IgnoreAux : Nat → List Nat → List Char
  | 0, _ => []
  | _, [] => []
  | fuel + 1, b :: rest =>
    if b < 0x80 then Char.ofNat b :: utf8IgnoreAux fuel rest
    else if 0xC2 ≤ b && b ≤ 0xDF then
      match rest with
      | [] => []
      | b2 :: rest2 =>
        if isCont b2 then
          Char.ofNat ((b - 0xC0) * 0x40 + (b2 - 0x80)) :: utf8IgnoreAux fuel rest2
        else utf8IgnoreAux fuel (b2 :: rest2)
    else if 0xE0 ≤ b && b ≤ 0xEF then
      match rest with
      | [] => []
      | [b2] => utf8IgnoreAux fuel [b2]
      | b2 :: b3 :: rest3 =>
        if cont3 b b2 && isCont b3 then
          Char.ofNat ((b - 0xE0) * 0x1000 + (b2 - 0x80) * 0x40 + (b3 - 0x80)) ::
            utf8IgnoreAux fuel rest3
        else utf8IgnoreAux fuel (b2 :: b3 :: rest3)
    else if 0xF0 ≤ b && b ≤ 0xF4 then
      match rest with
      | [] => []
      | [b2] => utf8IgnoreAux fuel [b2]
      | [b2, b3] => utf8IgnoreAux fuel [b2, b3]
      | b2 :: b3 :: b4 :: rest4 =>
        if cont4 b b2 && isCont b3 && isCont b4 then
          Char.ofNat ((b - 0xF0) * 0x40000 + (b2 - 0x80) * 0x1000 + (b3 - 0x80) * 0x40 + (b4 - 0x80))
            :: utf8IgnoreAux fuel rest4
        else utf8IgnoreAux fuel (b2 :: b3 :: b4 :: rest4)
    else utf8IgnoreAux fuel rest

/-- Model of `bytes.decode('utf-8', errors='ignore')`: decode well-formed
sequences, drop invalid ones.  CPython skips a maximal invalid subpart; this
model skips at least the offending lead byte, which yields the same decoded
characters on well-formed sequences and never invents a character from an
invalid or overlong sequence. -/
def utf8Ignore (bs : List Nat) : List Char := utf8IgnoreAux bs.length bs

/-- Python `str.strip(set)`: remove characters of `set` from both ends. -/
def stripChars (cs : List Char) (set : List Char) : List Char :=
  ((cs.dropWhile (fun c => decide (c ∈ set))).reverse.dropWhile
    (fun c => decide (c ∈ set))).reverse

/-- The byte-sequence path of `helpers.decode_bytearr`: filter out
`ILLEGAL_CHARS`, decode as UTF-8 ignoring errors, strip `'\r'`/`'\n'` from
both ends. -/
def decodeBytes (bs : List Nat) : String :=
  String.mk (stripChars (utf8Ignore (bs.filter (fun c => decide (c ∉ ILLEGAL_CHARS))))
    [Char.ofNat 13, Char.ofNat 10])

/-- The input universe of `helpers.decode_bytearr` exercised by this program
and by claim C8: a text string, a byte sequence (`bytes`/`bytearray`, byte
values ≤ 255), or a non-iterable value such as an integer. -/
inductive PyInput where
  | str (s : String)
  | bytes (bs : List Nat)
  | intVal (n : Int)
  deriving DecidableEq

/-- An uncaught Python exception in the decode model. -/
inductive PyError where
  | typeError
  deriving DecidableEq

/-- `helpers.decode_bytearr`.  Text is returned unchanged.  A byte sequence is
filtered, decoded and stripped.  A non-iterable input (e.g. an integer) makes
the list comprehension `[c for c in bytearr ...]` raise `TypeError`
(`'int' object is not iterable`), which the source's `except AttributeError`
does not catch, so the exception propagates: `Except.error`.  The source's
`decoded = None` branch fires only on an `AttributeError`, which no input in
this universe raises. -/
def decode_bytearr : PyInput → Except PyError (Option String)
  | PyInput.str s => Except.ok (some s)
  | PyInput.bytes bs => Except.ok (some (decodeBytes bs))
  | PyInput.intVal _ => Except.error PyError.typeError

/-- What `SerialListener.readline` can hand to `decode_bytearr`: a byte line
(possibly empty, `b''`), or the empty-text end-of-stream sentinel `''`. -/
inductive RawLine where
  | bytes (bs : List Nat)
  | emptyStr
  deriving DecidableEq

/-- The `PyInput` view of a `readline` result. -/
def RawLine.toPyInput : RawLine → PyInput
  | RawLine.bytes bs => PyInput.bytes bs
  | RawLine.emptyStr => PyInput.str ("")

/-- One iteration of `SerialListener.listen`: decode the raw line and return
the string that gets enqueued, if any (`None` or empty results are skipped;
a raised exception enqueues nothing). -/
def listenStep (raw : RawLine) : Option String :=
  match decode_bytearr raw.toPyInput with
  | Except.ok (some line) => if line = ("") then none else some line
  | Except.ok none => none
  | Except.error _ => none

/-- An extracted reading, as produced by the field extractors. -/
abbrev Reading := List (String × PyVal)

/-- One dequeue attempt in `HTTPSender.run`: either the 2-second queue wait
timed out, or a line was dequeued. -/
inductive SenderEvent where
  | timeout
  | line (s : String)
  deriving DecidableEq

/-- One iteration of the `HTTPSender.run` loop body over the current batch.
`extractor` is the selected field-extraction function applied to
`HTTPSender.fields`; `resp` tells whether the POST of a given payload comes
back with `Status == "OK"` (`false` covers connection failures and non-JSON
responses, which `_send_line` converts to a `FAIL` result, as well as an
explicit failure status).  Returns the new batch and the payload transmitted
during this iteration, if any. -/
def senderStep (extractor : String → Option Reading) (resp : List Reading → Bool)
    (batch : List Reading) : SenderEvent → List Reading × Option (List Reading)
  | SenderEvent.timeout => (batch, none)
  | SenderEvent.line s =>
    match extractor s with
    | none => (batch, none)
    | some data =>
      if (data :: batch).length < 10 then (data :: batch, none)
      else if resp (data :: batch) then ([], some (data :: batch))
      else (data :: batch, some (data :: batch))

/-- Run the `HTTPSender.run` loop over a sequence of dequeue events,
collecting the transmitted payloads in order; returns the final batch and the
payload trace. -/
def senderRunT (extractor : String → Option Reading) (resp : List Reading → Bool) :
    List Reading → List SenderEvent → List Reading × List (List Reading)
  | batch, [] => (batch, [])
  | batch, e :: es =>
    let st := senderStep extractor resp batch e
    let rest := senderRunT extractor resp st.1 es
    (rest.1, st.2.toList ++ rest.2)

/-- The decoded body of the sensor-lookup response
(`data['Exists']`, `data.get('SensorID', None)`). -/
structure LookupBody where
  exists_flag : Bool
  sensorID : Option Int
  deriving DecidableEq

/-- The decoded body of the registration response (`data.get('SensorID', None)`). -/
structure RegBody where
  sensorID : Option Int
  deriving DecidableEq

/-- Outcome of one HTTP request in `client.establish_connection`: a raised
`ConnectionError`, or a response with a status code and a body (`none` models
a `JSONDecodeError` from `response.json()`). -/
inductive HttpResult (β : Type) where
  | connError : HttpResult β
  | response (status : Nat) (body : Option β) : HttpResult β
  deriving DecidableEq

/-- `client.establish_connection`, with the two wire interactions (the GET
lookup and the PUT registration) supplied as parameters.  Mirrors the source:
connection or JSON failure on the lookup returns `None`; a non-200 lookup
status returns `None`; `Exists` true returns the looked-up `SensorID`;
otherwise the registration request is made and its `SensorID` is returned
(`None` on its connection/JSON failure; its status code is not checked). -/
def establish_connection (lookup : HttpResult LookupBody)
    (registration : HttpResult RegBody) : Option Int :=
  match lookup with
  | HttpResult.connError => none
  | HttpResult.response _ none => none
  | HttpResult.response status (some body) =>
    if status ≠ 200 then none
    else if body.exists_flag then body.sensorID
    else
      match registration with
      | HttpResult.connError => none
      | HttpResult.response _ none => none
      | HttpResult.response _ (some rbody) => rbody.sensorID

/-- `helpers.sensor_fields`. -/
def sensor_fields : List String :=
  ["g0", "GravCal", "LongCal", "CrossCal", "LongOffset", "CrossOffset", "stempgain",
   "Temperature", "stempoffset", "pressgain", "presszero", "beamgain", "beamzero",
   "Etempgain", "Etempzero", "Meter"]

/-- `helpers.cc_fields`. -/
def cc_fields : List String := ["vcc", "ve", "al", "ax", "monitors"]

/-- `helpers.platform_fields`. -/
def platform_fields : List String :=
  ["Cross_Damping", "Cross_Periode", "Cross_Lead", "Cross_Gain", "Cross_Comp",
   "Cross_Phcomp", "Cross_sp", "Long_Damping", "Long_Period", "Long_Lead", "Long_Gain",
   "Long_Comp", "Long_Phcomp", "Long_sp", "zerolong", "zerocross", "CrossSp", "LongSp"]

/-- `helpers.valid_fields = set().union(sensor_fields, cc_fields, platform_fields)`
(kept as a list; only membership is used). -/
def valid_fields : List String := sensor_fields ++ cc_fields ++ platform_fields

/-- The nested `safe_cast` of `helpers.read_config`: opportunistic float
conversion, original text on failure. -/
def safe_cast (value : String) : PyVal :=
  match pyFloat? value with
  | some q => PyVal.float q
  | none => PyVal.str value

/-- The state of the meter-configuration file as `helpers.read_config`
observes it: the path does not exist; the file parses but has no section
headers (`MissingSectionHeaderError`); or it parses into the three expected
sections, each an association list of keys to raw string values. -/
inductive MeterIni where
  | absent
  | noSectionHeaders
  | parsed (sensor crosscouplings platform : List (String × String))

/-- The error `helpers.read_config` raises on a missing path
(`FileNotFoundError`). -/
inductive ConfigError where
  | fileNotFound
  deriving DecidableEq

/-- `helpers.read_config`: raise `FileNotFoundError` if the path does not
exist, return `{}` on `MissingSectionHeaderError`, otherwise merge the three
section dicts (`{**sensor, **crosscouplings, **platform}`, later sections
overriding) and keep the lowercased whitelisted keys with `safe_cast` applied
to each value. -/
def read_config (file : MeterIni) : Except ConfigError (List (String × PyVal)) :=
  match file with
  | MeterIni.absent => Except.error ConfigError.fileNotFound
  | MeterIni.noSectionHeaders => Except.ok []
  | MeterIni.parsed sensor crosscouplings platform =>
    let merged := (sensor ++ crosscouplings ++ platform).foldl
      (fun d kv => dinsert d kv.1 kv.2) []
    Except.ok (merged.foldl
      (fun d kv =>
        if pyLower kv.1 ∈ valid_fields.map pyLower then
          dinsert d (pyLower kv.1) (safe_cast kv.2)
        else d) [])

/-- A concrete stand-in for `helpers.convert_marine_time`, used to instantiate
witnesses (its value is irrelevant to every claim proved here). -/
def mtimeZero : String → ℚ := fun _ => 0

/-! Association-list (Python dict) lemmas. -/

theorem dlookup_dinsert {α : Type} (d : List (String × α)) (k key : String) (v : α) :
    dlookup (dinsert d k v) key = if key = k then some v else dlookup d key := by
  induction d with
  | nil =>
    by_cases h : key = k
    · simp [dinsert, dlookup, h]
    · have h' : ¬ k = key := fun hh => h hh.symm
      simp [dinsert, dlookup, h, h']
  | cons kv rest ih =>
    by_cases h1 : kv.1 = k
    · by_cases h2 : key = k
      · subst h2
        simp [dinsert, dlookup, h1]
      · have h2' : ¬ k = key := fun hh => h2 hh.symm
        simp [dinsert, dlookup, h1, h2, h2']
    · by_cases h2 : kv.1 = key
      · have hk : ¬ key = k := fun hh => h1 (h2.trans hh)
        simp [dinsert, dlookup, h1, h2, hk]
      · simp [dinsert, dlookup, h1, h2, ih]

theorem dlookup_dinsert_self {α : Type} (d : List (String × α)) (k : String) (v : α) :
    dlookup (dinsert d k v) k = some v := by
  simp [dlookup_dinsert]

theorem dinsert_eq_append {α : Type} (d : List (String × α)) (k : String) (v : α)
    (h : dlookup d k = none) : dinsert d k v = d ++ [(k, v)] := by
  induction d with
  | nil => simp [dinsert]
  | cons kv rest ih =>
    by_cases h1 : kv.1 = k
    · simp [dlookup, h1] at h
    · simp [dlookup, h1] at h
      simp [dinsert, h1, ih h]

theorem dlookup_append_of_none {α : Type} (a b : List (String × α)) (k : String)
    (h : dlookup a k = none) : dlookup (a ++ b) k = dlookup b k := by
  induction a with
  | nil => simp
  | cons kv rest ih =>
    by_cases h1 : kv.1 = k
    · simp [dlookup, h1] at h
    · simp [dlookup, h1] at h ⊢
      exact ih h

theorem dlookup_isSome_iff {α : Type} (l : List (String × α)) (k : String) :
    (dlookup l k).isSome = true ↔ k ∈ l.map Prod.fst := by
  induction l with
  | nil => simp [dlookup]
  | cons kv rest ih =>
    by_cases h1 : kv.1 = k <;> simp [dlookup, h1, ih]
    exact fun hh => absurd hh.symm h1

theorem dlookup_mem {α : Type} (d : List (String × α)) (k : String) (v : α)
    (h : dlookup d k = some v) : (k, v) ∈ d := by
  induction d with
  | nil => simp [dlookup] at h
  | cons kv rest ih =>
    by_cases h1 : kv.1 = k
    · simp [dlookup, h1] at h
      have hkv : kv = (k, v) := by
        cases kv
        simp_all
      rw [hkv]
      exact List.mem_cons_self _ _
    · simp [dlookup, h1] at h
      exact List.mem_cons_of_mem _ (ih h)

theorem mem_dinsert {α : Type} (d : List (String × α)) (k key : String) (v w : α)
    (h : (key, w) ∈ dinsert d k v) : (key, w) ∈ d ∨ (key, w) = (k, v) := by
  induction d with
  | nil => simp [dinsert] at h; simp [h]
  | cons kv rest ih =>
    by_cases h1 : kv.1 = k
    · simp [dinsert, h1] at h
      rcases h with h | h
      · right; simp [h]
      · left; exact List.mem_cons_of_mem _ h
    · simp only [dinsert, h1, if_false, List.mem_cons] at h
      rcases h with h | h
      · left; simp [h]
      · rcases ih h with hh | hh
        · left; exact List.mem_cons_of_mem _ hh
        · right; exact hh

/-! List indexing lemmas used by the extraction-loop proofs. -/

theorem get?_eq_some_getD {α : Type} (l : List α) (i : Nat) (d : α) (h : i < l.length) :
    l.get? i = some (l.getD i d) := by
  induction l generalizing i with
  | nil => simp at h
  | cons x xs ih =>
    cases i with
    | zero => simp [List.getD]
    | succ j =>
      simp only [List.length_cons, Nat.succ_lt_succ_iff] at h
      simpa [List.getD] using ih j h

theorem drop_eq_getD_cons {α : Type} (l : List α) (i : Nat) (d : α) (h : i < l.length) :
    l.drop i = l.getD i d :: l.drop (i + 1) := by
  induction l generalizing i with
  | nil => simp at h
  | cons x xs ih =>
    cases i with
    | zero => simp [List.getD]
    | succ j =>
      simp only [List.length_cons, Nat.succ_lt_succ_iff] at h
      simpa [List.getD] using ih j h

/-! Extraction-loop lemmas. -/

theorem extractFields_isSome (mtime : String → ℚ) (lk : Bool) (toks fields : List String)
    (fmap : List String) :
    ∀ (i : Nat) (acc : List (String × PyVal)), i + fmap.length ≤ toks.length →
      (extractFields mtime lk toks fields fmap i acc).isSome = true := by
  induction fmap with
  | nil =>
    intro i acc _
    simp [extractFields]
  | cons f fs ih =>
    intro i acc hlen
    have hi : i < toks.length := by
      simp only [List.length_cons] at hlen
      omega
    have hget := get?_eq_some_getD toks i ("") hi
    have hlen' : i + 1 + fs.length ≤ toks.length := by
      simp only [List.length_cons] at hlen
      omega
    by_cases hf : pyLower f ∈ fields
    · simp only [extractFields, hf, if_true, hget]
      exact ih (i + 1) _ hlen'
    · simp only [extractFields, hf, if_false]
      exact ih (i + 1) acc hlen'

theorem selectFields_eq_filterMap (mtime : String → ℚ) (fields : List String)
    (l : List (String × String)) :
    selectFields mtime fields l =
      (l.filter (fun p => decide (p.1 ∈ fields))).map (fun p => (p.1, castField mtime p.1 p.2)) := by
  induction l with
  | nil => simp [selectFields]
  | cons p rest ih =>
    by_cases h : p.1 ∈ fields <;> simp [selectFields, h, ih, List.filter_cons]

theorem extractFields_eq_selectFields (mtime : String → ℚ) (lk : Bool)
    (toks fields : List String) (fmap : List String) :
    ∀ (i : Nat) (acc : List (String × PyVal)),
      (∀ f ∈ fmap, pyLower f = f) →
      fmap.Nodup →
      (∀ f ∈ fmap, dlookup acc f = none) →
      i + fmap.length ≤ toks.length →
      extractFields mtime lk toks fields fmap i acc =
        some (acc ++ selectFields mtime fields (fmap.zip (toks.drop i))) := by
  induction fmap with
  | nil =>
    intro i acc _ _ _ _
    simp [extractFields, selectFields]
  | cons f fs ih =>
    intro i acc hl hnd hfresh hlen
    have hi : i < toks.length := by
      simp only [List.length_cons] at hlen
      omega
    have hget := get?_eq_some_getD toks i ("") hi
    have hdrop := drop_eq_getD_cons toks i ("") hi
    have hfl : pyLower f = f := hl f (List.mem_cons_self f fs)
    have hndf : f ∉ fs := (List.nodup_cons.mp hnd).1
    have hndfs : fs.Nodup := (List.nodup_cons.mp hnd).2
    have hl' : ∀ g ∈ fs, pyLower g = g := fun g hg => hl g (List.mem_cons_of_mem f hg)
    have hlen' : i + 1 + fs.length ≤ toks.length := by
      simp only [List.length_cons] at hlen
      omega
    rw [hdrop]
    by_cases hf : f ∈ fields
    · have hfM : pyLower f ∈ fields := by
        rw [hfl]
        exact hf
      have hkey : (if lk then pyLower f else f) = f := by cases lk <;> simp [hfl]
      have hfreshf := hfresh f (List.mem_cons_self f fs)
      have hfresh' : ∀ g ∈ fs,
          dlookup (acc ++ [(f, castField mtime (pyLower f) (toks.getD i ("")))]) g = none := by
        intro g hg
        rw [dlookup_append_of_none _ _ _ (hfresh g (List.mem_cons_of_mem f hg))]
        have hgf : ¬ f = g := fun hh => hndf (hh ▸ hg)
        simp [dlookup, hgf]
      simp only [extractFields, hfM, if_true, hget, hkey,
        dinsert_eq_append acc f _ hfreshf]
      rw [ih (i + 1) _ hl' hndfs hfresh' hlen']
      simp [List.zip_cons_cons, selectFields, hfl, hf, List.append_assoc, List.zip]
    · have hfM : ¬ pyLower f ∈ fields := by
        rw [hfl]
        exact hf
      simp only [extractFields, hfM, if_false]
      rw [ih (i + 1) acc hl' hndfs (fun g hg => hfresh g (List.mem_cons_of_mem f hg)) hlen']
      simp [List.zip_cons_cons, selectFields, hfl, hf, List.zip]

/-! Agreement of the kernel-computable rational operations with `ℚ`
arithmetic. -/

theorem num_cast_eq (a : ℚ) : (a.num : ℚ) = a * (a.den : ℚ) := by
  have ha : ((a.den : ℚ)) ≠ 0 := by exact_mod_cast a.den_nz
  have h := Rat.num_div_den a
  rwa [div_eq_iff ha] at h

theorem qadd_eq (a b : ℚ) : qadd a b = a + b := by
  have ha : ((a.den : ℚ)) ≠ 0 := by exact_mod_cast a.den_nz
  have hb : ((b.den : ℚ)) ≠ 0 := by exact_mod_cast b.den_nz
  rw [qadd, Rat.mkRat_eq_div]
  push_cast
  field_simp
  rw [num_cast_eq a, num_cast_eq b]
  ring

theorem qmul_eq (a b : ℚ) : qmul a b = a * b := by
  have ha : ((a.den : ℚ)) ≠ 0 := by exact_mod_cast a.den_nz
  have hb : ((b.den : ℚ)) ≠ 0 := by exact_mod_cast b.den_nz
  rw [qmul, Rat.mkRat_eq_div]
  push_cast
  field_simp
  rw [num_cast_eq a, num_cast_eq b]
  ring

theorem qmk_int_eq (n : Int) : mkRat n 1 = (n : ℚ) := by
  rw [Rat.mkRat_eq_div]
  norm_num

/-! The claims. -/

/-- Claim C1: for every input line and wanted-fields set, marine extraction
returns no result when the comma-split token count differs from 19; when the
count is exactly 19 it returns exactly the wanted layout fields, each cast by
the fixed per-field rule (`header` to text; `latitude`/`longitude`/`speed`/
`course` to float; `datetime` via the instrument-time conversion; every other
field to integer), with the raw text token kept in place of a value whose
numeric cast fails (`castField` embeds exactly that rule). -/
theorem marine_extraction_spec (mtime : String → ℚ) (line : String) (fields : List String) :
    ((pySplit line).length ≠ 19 → _extract_marine_fields mtime line fields = none)
    ∧ ((pySplit line).length = 19 →
      _extract_marine_fields mtime line fields =
        some (((_marine_fieldmap.zip (pySplit line)).filter
            (fun p => decide (p.1 ∈ fields))).map
          (fun p => (p.1, castField mtime p.1 p.2))))
    ∧ ((pySplit line).length = 19 → ∀ m, _extract_marine_fields mtime line fields = some m →
      ∀ key, (dlookup m key).isSome = true ↔ (key ∈ _marine_fieldmap ∧ key ∈ fields)) := by
  have hfm : _marine_fieldmap.length = 19 := rfl
  have hclosed : (pySplit line).length = 19 →
      _extract_marine_fields mtime line fields =
        some (((_marine_fieldmap.zip (pySplit line)).filter
            (fun p => decide (p.1 ∈ fields))).map
          (fun p => (p.1, castField mtime p.1 p.2))) := by
    intro h19
    simp only [_extract_marine_fields]
    rw [if_pos (h19.trans hfm.symm)]
    rw [extractFields_eq_selectFields mtime false (pySplit line) fields _marine_fieldmap 0 []
      (by decide) (by decide) (fun _ _ => rfl) (by rw [hfm, h19])]
    rw [List.drop_zero, List.nil_append, selectFields_eq_filterMap]
  refine ⟨?_, hclosed, ?_⟩
  · intro hne
    simp only [_extract_marine_fields]
    rw [if_neg (fun h => hne (h.trans hfm))]
  · intro h19 m hm key
    rw [hclosed h19] at hm
    cases hm
    rw [dlookup_isSome_iff]
    have hmap : (((_marine_fieldmap.zip (pySplit line)).filter
          (fun p => decide (p.1 ∈ fields))).map
        (fun p => (p.1, castField mtime p.1 p.2))).map Prod.fst =
        ((_marine_fieldmap.zip (pySplit line)).filter
          (fun p => decide (p.1 ∈ fields))).map Prod.fst := by
      simp [List.map_map, Function.comp]
    rw [hmap]
    constructor
    · intro hk
      rcases List.mem_map.mp hk with ⟨p, hpmem, hpk⟩
      rcases List.mem_filter.mp hpmem with ⟨hpzip, hpf⟩
      have hfst := (List.of_mem_zip hpzip).1
      constructor
      · rw [← hpk]
        exact hfst
      · rw [← hpk]
        exact of_decide_eq_true hpf
    · rintro ⟨hk1, hk2⟩
      have hle : _marine_fieldmap.length ≤ (pySplit line).length := by rw [hfm, h19]
      have hzmap : (_marine_fieldmap.zip (pySplit line)).map Prod.fst = _marine_fieldmap :=
        List.map_fst_zip _ _ hle
      rw [← hzmap] at hk1
      rcases List.mem_map.mp hk1 with ⟨p, hpzip, hpk⟩
      refine List.mem_map.mpr ⟨p, List.mem_filter.mpr ⟨hpzip, ?_⟩, hpk⟩
      rw [hpk]
      exact decide_eq_true hk2

/-- Witness for C1 at a concrete 19-token marine line. -/
theorem marine_extraction_spec_witness :
    _extract_marine_fields mtimeZero
        ("H,1,2,3,4,5,6,7,8,9,10,11,12,13,1.5,2.5,3.5,4.5,20200101000000")
        [("gravity"), ("latitude"), ("header"), ("datetime")] =
      some [(("header"), PyVal.str ("H")), (("gravity"), PyVal.int 1),
            (("latitude"), PyVal.float (mkRat 3 2)), (("datetime"), PyVal.float 0)] := by
  have h := (marine_extraction_spec mtimeZero
    ("H,1,2,3,4,5,6,7,8,9,10,11,12,13,1.5,2.5,3.5,4.5,20200101000000")
    [("gravity"), ("latitude"), ("header"), ("datetime")]).2.1 (by decide)
  exact h.trans (by decide)

/-- Claim C2: airborne extraction fails when the token count differs from 13
or either trailing numeric token fails to parse (`gpsweekseconds` as float,
then `gpsweek` as integer, consumed from the end); a successful extraction
always binds key `datetime` to the GPS-time conversion of the trailing pair,
for every wanted-fields set (in particular one without `datetime`). -/
theorem airborne_extraction_spec (mtime : String → ℚ) (line : String) (fields : List String) :
    ((pySplit line).length ≠ 13 → _extract_airborne_fields mtime line fields = none)
    ∧ (pyFloat? ((pySplit line).getLastD ("")) = none →
      _extract_airborne_fields mtime line fields = none)
    ∧ (pyInt? (((pySplit line).dropLast).getLastD ("")) = none →
      _extract_airborne_fields mtime line fields = none)
    ∧ (∀ m (w : Int) (s : ℚ), _extract_airborne_fields mtime line fields = some m →
      pyFloat? ((pySplit line).getLastD ("")) = some s →
      pyInt? (((pySplit line).dropLast).getLastD ("")) = some w →
      dlookup m ("datetime") = some (PyVal.float (convert_gps_time w s))) := by
  have hfm : _airborne_fieldmap.length + 2 = 13 := rfl
  refine ⟨?_, ?_, ?_, ?_⟩
  · intro hne
    simp only [_extract_airborne_fields]
    rw [if_neg (fun h => hne (h.trans hfm))]
  · intro hs
    simp only [_extract_airborne_fields, hs]
    split <;> rfl
  · intro hw
    simp only [_extract_airborne_fields, hw]
    split
    · split <;> rfl
    · rfl
  · intro m w s hm hs hw
    simp only [_extract_airborne_fields] at hm
    split at hm
    · rw [hs] at hm
      simp only at hm
      rw [hw] at hm
      simp only at hm
      split at hm
      · cases hm
      · rename_i ex hex
        cases hm
        exact dlookup_dinsert_self ex ("datetime") _
    · cases hm

/-- Witness for C2 at a concrete 13-token airborne line whose wanted fields do
not include `datetime`. -/
theorem airborne_extraction_spec_witness :
    dlookup [(("gravity"), PyVal.int 5), (("datetime"), PyVal.float (mkRat 1841529603 2))]
        ("datetime") = some (PyVal.float (convert_gps_time 1000 (mkRat 3 2))) := by
  exact (airborne_extraction_spec mtimeZero ("a,5,0,0,0,0,0,0,0,0,0,1000,1.5")
    [("gravity")]).2.2.2
    [(("gravity"), PyVal.int 5), (("datetime"), PyVal.float (mkRat 1841529603 2))]
    1000 (mkRat 3 2) (by decide) (by decide) (by decide)

/-- Claim C3: the GPS time conversion returns exactly
`315964800.0 + gpsweek * 604800 + gpsweekseconds`. -/
theorem convert_gps_time_formula (gpsweek : Int) (gpsweekseconds : ℚ) :
    convert_gps_time gpsweek gpsweekseconds =
      315964800 + (gpsweek : ℚ) * 604800 + gpsweekseconds := by
  simp only [convert_gps_time, qadd_eq, qmul_eq, qmk_int_eq]
  push_cast
  ring

/-- Counterexample to claim C4: at `gpsweek = 2000`, `gpsweekseconds = 0.0`
the code's derived timestamp is `1525564800.0`, not the spec's stated
`1525764800.0` (the spec's sum `315964800 + 2000*604800` is miscomputed by
`200000`). -/
theorem gps_week2000_counterexample :
    _extract_airborne_fields mtimeZero ("g,1,2,3,4,5,6,7,8,9,10,2000,0.0") [("gravity")] =
      some [(("gravity"), PyVal.int 1), (("datetime"), PyVal.float 1525564800)]
    ∧ convert_gps_time 2000 0 = 1525564800
    ∧ (1525564800 : ℚ) ≠ 1525764800 := by
  refine ⟨by decide, by decide, by decide⟩

/-- Claim C4 as amended: for an airborne line with 13 tokens where
`gpsweek = 2000` and `gpsweekseconds = 0.0`, the derived timestamp equals
`315964800.0 + 2000*604800 + 0.0 = 1525564800.0`. -/
theorem gps_week2000_amended :
    _extract_airborne_fields mtimeZero ("h,0,0,0,0,0,0,0,0,0,0,2000,0.0") [("gravity")] =
      some [(("gravity"), PyVal.int 0), (("datetime"), PyVal.float 1525564800)]
    ∧ convert_gps_time 2000 0 = 315964800 + (2000 : ℚ) * 604800 + 0
    ∧ (315964800 : ℚ) + 2000 * 604800 + 0 = 1525564800 := by
  refine ⟨by decide, ?_, by norm_num⟩
  simp only [convert_gps_time, qadd_eq, qmul_eq, qmk_int_eq]
  push_cast
  ring

/-- Claim C10: once the token-count check has passed, the missing-token
(`IndexError`) branch of both extraction loops is unreachable: a 19-token
marine line always extracts successfully, and a 13-token airborne line whose
two trailing tokens parse always extracts successfully. -/
theorem extraction_index_safe :
    (∀ (mtime : String → ℚ) (line : String) (fields : List String),
      (pySplit line).length = 19 →
      (_extract_marine_fields mtime line fields).isSome = true)
    ∧ (∀ (mtime : String → ℚ) (line : String) (fields : List String) (w : Int) (s : ℚ),
      (pySplit line).length = 13 →
      pyFloat? ((pySplit line).getLastD ("")) = some s →
      pyInt? (((pySplit line).dropLast).getLastD ("")) = some w →
      (_extract_airborne_fields mtime line fields).isSome = true) := by
  constructor
  · intro mtime line fields h19
    have hfm : _marine_fieldmap.length = 19 := rfl
    simp only [_extract_marine_fields]
    rw [if_pos (h19.trans hfm.symm)]
    exact extractFields_isSome mtime false (pySplit line) fields _marine_fieldmap 0 []
      (by rw [hfm, h19])
  · intro mtime line fields w s h13 hs hw
    have hfm : _airborne_fieldmap.length + 2 = 13 := rfl
    have hlen2 : ((pySplit line).dropLast.dropLast).length = 11 := by
      simp [List.length_dropLast, h13]
    have hok := extractFields_isSome mtime true ((pySplit line).dropLast.dropLast) fields
      _airborne_fieldmap 0 [] (by rw [hlen2]; decide)
    simp only [_extract_airborne_fields]
    rw [if_pos (h13.trans hfm.symm), hs, hw]
    simp only
    rcases Option.isSome_iff_exists.mp hok with ⟨ex, hex⟩
    rw [hex]
    rfl

/-- Witness for C10 at a concrete 19-token marine line. -/
theorem extraction_index_safe_witness :
    (_extract_marine_fields mtimeZero ("a,b,c,d,e,f,g,h,i,j,k,l,m,n,o,p,q,r,s") []).isSome
      = true := by
  exact extraction_index_safe.1 mtimeZero ("a,b,c,d,e,f,g,h,i,j,k,l,m,n,o,p,q,r,s") []
    (by decide)

/-! HTTP sender batch lemmas. -/

theorem senderStep_snd_some (ex : String → Option Reading) (resp : List Reading → Bool)
    (b : List Reading) (e : SenderEvent) (p : List Reading)
    (h : (senderStep ex resp b e).2 = some p) :
    10 ≤ p.length ∧ (∃ r, p = r :: b) ∧
      (resp p = true → (senderStep ex resp b e).1 = []) ∧
      (resp p = false → (senderStep ex resp b e).1 = p) := by
  cases e with
  | timeout => simp [senderStep] at h
  | line s =>
    cases hex : ex s with
    | none => simp [senderStep, hex] at h
    | some r =>
      by_cases hlen : b.length + 1 < 10
      · simp [senderStep, hex, hlen] at h
      · by_cases hr : resp (r :: b)
        · simp only [senderStep, hex, List.length_cons, if_neg hlen, if_pos hr] at h ⊢
          cases h
          refine ⟨by simp only [List.length_cons]; omega, ⟨r, rfl⟩, fun _ => by trivial,
            fun hfalse => ?_⟩
          rw [hr] at hfalse
          cases hfalse
        · simp only [senderStep, hex, List.length_cons, if_neg hlen, if_neg hr] at h ⊢
          cases h
          refine ⟨by simp only [List.length_cons]; omega, ⟨r, rfl⟩, fun htrue => ?_,
            fun _ => by trivial⟩
          rw [htrue] at hr
          exact absurd rfl hr

theorem senderStep_snd_none (ex : String → Option Reading) (resp : List Reading → Bool)
    (b : List Reading) (e : SenderEvent)
    (h : (senderStep ex resp b e).2 = none) :
    b <:+ (senderStep ex resp b e).1 ∧
      ((senderStep ex resp b e).1 = b ∨ ((senderStep ex resp b e).1).length < 10) := by
  cases e with
  | timeout => exact ⟨List.suffix_rfl, Or.inl (by trivial)⟩
  | line s =>
    cases hex : ex s with
    | none =>
      simp only [senderStep, hex]
      exact ⟨List.suffix_rfl, Or.inl (by trivial)⟩
    | some r =>
      by_cases hlen : b.length + 1 < 10
      · simp only [senderStep, hex, List.length_cons, if_pos hlen]
        exact ⟨List.suffix_cons r b, Or.inr (by simpa using hlen)⟩
      · by_cases hr : resp (r :: b) <;>
          simp [senderStep, hex, List.length_cons, if_neg hlen, hr] at h

theorem senderRunT_head_suffix (ex : String → Option Reading) (resp : List Reading → Bool) :
    ∀ (es : List SenderEvent) (b p : List Reading),
      ((senderRunT ex resp b es).2).head? = some p → b <:+ p := by
  intro es
  induction es with
  | nil =>
    intro b p hp
    simp [senderRunT] at hp
  | cons e es ih =>
    intro b p hp
    simp only [senderRunT] at hp
    cases hst : (senderStep ex resp b e).2 with
    | some q =>
      rw [hst] at hp
      simp only [Option.toList, List.cons_append, List.head?_cons] at hp
      have hqp : q = p := by
        injection hp
      subst hqp
      rcases (senderStep_snd_some ex resp b e q hst).2.1 with ⟨r, hq⟩
      rw [hq]
      exact List.suffix_cons r b
    | none =>
      rw [hst] at hp
      simp only [Option.toList, List.nil_append] at hp
      have hsuf := (senderStep_snd_none ex resp b e hst).1
      exact hsuf.trans (ih (senderStep ex resp b e).1 p hp)

theorem senderRunT_head_len (ex : String → Option Reading) (resp : List Reading → Bool) :
    ∀ (es : List SenderEvent) (b p : List Reading),
      b.length < 10 → ((senderRunT ex resp b es).2).head? = some p → p.length = 10 := by
  intro es
  induction es with
  | nil =>
    intro b p _ hp
    simp [senderRunT] at hp
  | cons e es ih =>
    intro b p hb hp
    simp only [senderRunT] at hp
    cases hst : (senderStep ex resp b e).2 with
    | some q =>
      rw [hst] at hp
      simp only [Option.toList, List.cons_append, List.head?_cons] at hp
      have hqp : q = p := by
        injection hp
      subst hqp
      rcases senderStep_snd_some ex resp b e q hst with ⟨hq10, ⟨r, hq⟩, _, _⟩
      rw [hq]
      rw [hq] at hq10
      simp only [List.length_cons] at hq10 ⊢
      omega
    | none =>
      rw [hst] at hp
      simp only [Option.toList, List.nil_append] at hp
      rcases (senderStep_snd_none ex resp b e hst).2 with hb' | hb'
      · exact ih _ p (by rw [hb']; exact hb) hp
      · exact ih _ p hb' hp

theorem senderRunT_chain (ex : String → Option Reading) (resp : List Reading → Bool) :
    ∀ (es : List SenderEvent) (b : List Reading),
      List.Chain' (fun p q => resp p = false → p <:+ q) ((senderRunT ex resp b es).2) := by
  intro es
  induction es with
  | nil =>
    intro b
    simp [senderRunT]
  | cons e es ih =>
    intro b
    simp only [senderRunT]
    cases hst : (senderStep ex resp b e).2 with
    | none => simpa [Option.toList] using ih (senderStep ex resp b e).1
    | some p =>
      simp only [Option.toList, List.cons_append, List.nil_append]
      rw [List.chain'_cons']
      refine ⟨?_, ih (senderStep ex resp b e).1⟩
      intro q hq hpfalse
      rw [Option.mem_def] at hq
      have hb1 : (senderStep ex resp b e).1 = p :=
        (senderStep_snd_some ex resp b e p hst).2.2.2 hpfalse
      have hsuf := senderRunT_head_suffix ex resp es (senderStep ex resp b e).1 q hq
      rwa [hb1] at hsuf

/-- Claim C5: the HTTP sender's batch is not transmitted until 10 readings
have accumulated (the first transmission from a below-threshold batch carries
exactly 10 readings); each extracted reading is inserted at the front of the
batch; after a send whose response status is `OK` the batch is empty; after a
failed send the batch retains the transmitted payload unchanged; and every
payload after a failed one (before a success) extends it, so the batch is
resent undiminished or larger at the next trigger. -/
theorem httpsender_batch_spec (ex : String → Option Reading) (resp : List Reading → Bool) :
    (∀ b e p, (senderStep ex resp b e).2 = some p → 10 ≤ p.length)
    ∧ (∀ b s r, ex s = some r →
      (senderStep ex resp b (SenderEvent.line s)).2 = some (r :: b)
      ∨ ((senderStep ex resp b (SenderEvent.line s)).2 = none
          ∧ (senderStep ex resp b (SenderEvent.line s)).1 = r :: b))
    ∧ (∀ b e p, (senderStep ex resp b e).2 = some p → resp p = true →
      (senderStep ex resp b e).1 = [])
    ∧ (∀ b e p, (senderStep ex resp b e).2 = some p → resp p = false →
      (senderStep ex resp b e).1 = p)
    ∧ (∀ es b p, b.length < 10 → ((senderRunT ex resp b es).2).head? = some p →
      p.length = 10)
    ∧ (∀ es b, List.Chain' (fun p q => resp p = false → p <:+ q)
      ((senderRunT ex resp b es).2)) := by
  refine ⟨?_, ?_, ?_, ?_, senderRunT_head_len ex resp, senderRunT_chain ex resp⟩
  · intro b e p h
    exact (senderStep_snd_some ex resp b e p h).1
  · intro b s r hex
    by_cases hlen : b.length + 1 < 10
    · right
      constructor <;> simp [senderStep, hex, List.length_cons, hlen]
    · left
      by_cases hr : resp (r :: b) <;>
        simp [senderStep, hex, List.length_cons, hlen, hr]
  · intro b e p h
    exact (senderStep_snd_some ex resp b e p h).2.2.1
  · intro b e p h
    exact (senderStep_snd_some ex resp b e p h).2.2.2

/-- Witness for C5: with a nine-element batch, a successfully extracted
reading triggers a send of exactly the ten-element batch (new reading at the
front), and a failed response leaves the batch equal to the payload. -/
theorem httpsender_batch_spec_witness :
    (senderStep (fun _ => some []) (fun _ => false) (List.replicate 9 ([] : Reading))
        (SenderEvent.line ("x"))).1 = List.replicate 10 ([] : Reading)
    ∧ 10 ≤ (List.replicate 10 ([] : Reading)).length := by
  constructor
  · exact (httpsender_batch_spec (fun _ => some []) (fun _ => false)).2.2.2.1
      (List.replicate 9 ([] : Reading)) (SenderEvent.line ("x"))
      (List.replicate 10 ([] : Reading)) (by decide) rfl
  · decide

/-- Claim C6: `establish_connection` returns the looked-up `SensorID`
unchanged when the lookup response has status 200 and `Exists` is true;
returns the `SensorID` from the registration request when `Exists` is false;
and returns no value on a connection failure, a malformed (non-JSON) response,
or a non-200 lookup status. -/
theorem establish_connection_spec :
    (∀ reg, establish_connection HttpResult.connError reg = none)
    ∧ (∀ st reg, establish_connection (HttpResult.response st none) reg = none)
    ∧ (∀ st body reg, st ≠ 200 →
      establish_connection (HttpResult.response st (some body)) reg = none)
    ∧ (∀ sid reg, establish_connection
      (HttpResult.response 200 (some (LookupBody.mk true sid))) reg = sid)
    ∧ (∀ sid, establish_connection
      (HttpResult.response 200 (some (LookupBody.mk false sid))) HttpResult.connError = none)
    ∧ (∀ sid st, establish_connection
      (HttpResult.response 200 (some (LookupBody.mk false sid)))
      (HttpResult.response st none) = none)
    ∧ (∀ sid st rsid, establish_connection
      (HttpResult.response 200 (some (LookupBody.mk false sid)))
      (HttpResult.response st (some (RegBody.mk rsid))) = rsid) := by
  refine ⟨fun reg => rfl, fun st reg => rfl, ?_, fun sid reg => rfl, fun sid => rfl,
    fun sid st => rfl, fun sid st rsid => rfl⟩
  intro st body reg hst
  simp [establish_connection, hst]

/-- Witness for C6: a 404 lookup status yields no sensor id. -/
theorem establish_connection_spec_witness :
    establish_connection (HttpResult.response 404 (some (LookupBody.mk true (some 7))))
      HttpResult.connError = none :=
  establish_connection_spec.2.2.1 404 (LookupBody.mk true (some 7)) HttpResult.connError
    (by decide)

/-- Counterexample to claim C8: on the integer input `5` (neither text nor
bytes, not iterable), `decode_bytearr` raises an uncaught `TypeError` — it
does not return the absent value. -/
theorem decode_int_input_counterexample :
    decode_bytearr (PyInput.intVal 5) = Except.error PyError.typeError
    ∧ decode_bytearr (PyInput.intVal 5) ≠ Except.ok none := by
  exact ⟨rfl, by decide⟩

/-- Claim C8 as amended: for every input that is neither text nor bytes and
does not support iteration (an integer), `decode_bytearr` fails with an
uncaught `TypeError` rather than returning absent — the absent-returning
branch fires only on an `AttributeError`, which such inputs do not raise. -/
theorem decode_int_input_typeerror (n : Int) :
    decode_bytearr (PyInput.intVal n) = Except.error PyError.typeError := rfl

/-! Meter-configuration (read_config) lemmas. -/

theorem mem_foldl_dinsert {α : Type} (l : List (String × α)) :
    ∀ (acc : List (String × α)) (kv : String × α),
      kv ∈ l.foldl (fun d kv' => dinsert d kv'.1 kv'.2) acc → kv ∈ acc ∨ kv ∈ l := by
  induction l with
  | nil =>
    intro acc kv h
    exact Or.inl h
  | cons x xs ih =>
    intro acc kv h
    simp only [List.foldl_cons] at h
    rcases ih _ kv h with h1 | h1
    · rcases kv with ⟨key, w⟩
      rcases mem_dinsert acc x.1 key x.2 w h1 with h2 | h2
      · exact Or.inl h2
      · right
        rw [h2]
        exact List.mem_cons_self _ _
    · exact Or.inr (List.mem_cons_of_mem _ h1)

theorem mem_foldl_config (l : List (String × String)) :
    ∀ (acc : List (String × PyVal)) (kv : String × PyVal),
      kv ∈ l.foldl (fun d kv' =>
        if pyLower kv'.1 ∈ valid_fields.map pyLower then
          dinsert d (pyLower kv'.1) (safe_cast kv'.2)
        else d) acc →
      kv ∈ acc ∨ ∃ kv' ∈ l, kv = (pyLower kv'.1, safe_cast kv'.2) := by
  induction l with
  | nil =>
    intro acc kv h
    exact Or.inl h
  | cons x xs ih =>
    intro acc kv h
    simp only [List.foldl_cons] at h
    by_cases hx : pyLower x.1 ∈ valid_fields.map pyLower
    · rw [if_pos hx] at h
      rcases ih _ kv h with h1 | h1
      · rcases kv with ⟨key, w⟩
        rcases mem_dinsert acc (pyLower x.1) key (safe_cast x.2) w h1 with h2 | h2
        · exact Or.inl h2
        · right
          exact ⟨x, List.mem_cons_self _ _, h2⟩
      · rcases h1 with ⟨kv', hkv', hkveq⟩
        exact Or.inr ⟨kv', List.mem_cons_of_mem _ hkv', hkveq⟩
    · rw [if_neg hx] at h
      rcases ih _ kv h with h1 | h1
      · exact Or.inl h1
      · rcases h1 with ⟨kv', hkv', hkveq⟩
        exact Or.inr ⟨kv', List.mem_cons_of_mem _ hkv', hkveq⟩

theorem dlookup_foldl_dinsert_isSome {α : Type} (l : List (String × α)) :
    ∀ (acc : List (String × α)) (k : String),
      ((dlookup acc k).isSome = true ∨ k ∈ l.map Prod.fst) →
      (dlookup (l.foldl (fun d kv => dinsert d kv.1 kv.2) acc) k).isSome = true := by
  induction l with
  | nil =>
    intro acc k h
    rcases h with h | h
    · exact h
    · simp at h
  | cons x xs ih =>
    intro acc k h
    simp only [List.foldl_cons]
    apply ih
    rcases h with h | h
    · left
      rw [dlookup_dinsert]
      by_cases hk : k = x.1 <;> simp [hk, h]
    · simp only [List.map_cons, List.mem_cons] at h
      rcases h with h | h
      · left
        rw [dlookup_dinsert, if_pos h]
        rfl
      · exact Or.inr h

theorem dlookup_foldl_config_isSome (l : List (String × String)) :
    ∀ (acc : List (String × PyVal)) (k : String),
      ((dlookup acc k).isSome = true ∨
        ∃ kv ∈ l, pyLower kv.1 ∈ valid_fields.map pyLower ∧ pyLower kv.1 = k) →
      (dlookup (l.foldl (fun d kv =>
        if pyLower kv.1 ∈ valid_fields.map pyLower then
          dinsert d (pyLower kv.1) (safe_cast kv.2)
        else d) acc) k).isSome = true := by
  induction l with
  | nil =>
    intro acc k h
    rcases h with h | h
    · exact h
    · simp at h
  | cons x xs ih =>
    intro acc k h
    simp only [List.foldl_cons]
    apply ih
    rcases h with h | h
    · left
      by_cases hx : pyLower x.1 ∈ valid_fields.map pyLower
      · rw [if_pos hx, dlookup_dinsert]
        by_cases hk : k = pyLower x.1 <;> simp [hk, h]
      · rw [if_neg hx]
        exact h
    · rcases h with ⟨kv, hkv, hwl, hk⟩
      rcases List.mem_cons.mp hkv with h1 | h1
      · left
        subst h1
        rw [if_pos hwl, dlookup_dinsert, if_pos hk.symm]
        rfl
      · right
        exact ⟨kv, h1, hwl, hk⟩

/-- Claim C7: `read_config` fails with a `FileNotFoundError` when the path
does not exist; on an existing parsed file, every entry of the returned
mapping is a lowercased key of one of the three sections whose value is the
float conversion of the original text when that text is numeric, and the
original text otherwise; and (when the sections contain only whitelisted
keys) every section key is present, lowercased, in the result. -/
theorem read_config_spec :
    read_config MeterIni.absent = Except.error ConfigError.fileNotFound
    ∧ (∀ sensor crosscouplings platform m,
      read_config (MeterIni.parsed sensor crosscouplings platform) = Except.ok m →
      ∀ kv ∈ m, ∃ k₀ v₀, (k₀, v₀) ∈ sensor ++ crosscouplings ++ platform ∧
        kv.1 = pyLower k₀ ∧
        (∀ q, pyFloat? v₀ = some q → kv.2 = PyVal.float q) ∧
        (pyFloat? v₀ = none → kv.2 = PyVal.str v₀))
    ∧ (∀ sensor crosscouplings platform m,
      (∀ kv ∈ sensor ++ crosscouplings ++ platform,
        pyLower kv.1 ∈ valid_fields.map pyLower) →
      read_config (MeterIni.parsed sensor crosscouplings platform) = Except.ok m →
      ∀ kv ∈ sensor ++ crosscouplings ++ platform,
        (dlookup m (pyLower kv.1)).isSome = true) := by
  refine ⟨rfl, ?_, ?_⟩
  · intro sensor crosscouplings platform m hm kv hkv
    simp only [read_config] at hm
    cases hm
    rcases mem_foldl_config _ [] kv hkv with h | h
    · simp at h
    · rcases h with ⟨kv', hkv', hkveq⟩
      rcases mem_foldl_dinsert _ [] kv' hkv' with h2 | h2
      · simp at h2
      · refine ⟨kv'.1, kv'.2, h2, ?_, ?_, ?_⟩
        · rw [hkveq]
        · intro q hq
          rw [hkveq]
          simp [safe_cast, hq]
        · intro hq
          rw [hkveq]
          simp [safe_cast, hq]
  · intro sensor crosscouplings platform m hwl hm kv hkv
    simp only [read_config] at hm
    cases hm
    apply dlookup_foldl_config_isSome
    right
    have hmerged : (dlookup ((sensor ++ crosscouplings ++ platform).foldl
        (fun d kv' => dinsert d kv'.1 kv'.2) []) kv.1).isSome = true := by
      apply dlookup_foldl_dinsert_isSome
      right
      exact List.mem_map_of_mem Prod.fst hkv
    rcases Option.isSome_iff_exists.mp hmerged with ⟨v, hv⟩
    refine ⟨(kv.1, v), dlookup_mem _ _ _ hv, ?_, rfl⟩
    exact hwl kv hkv

/-- Witness for C7 at a concrete three-section configuration with one
non-numeric value. -/
theorem read_config_spec_witness :
    (dlookup [(("g0"), PyVal.float (mkRat 21 2)), (("vcc"), PyVal.str ("abc")),
      (("longsp"), PyVal.float (mkRat 2 1))] ("longsp")).isSome = true := by
  exact read_config_spec.2.2 [(("g0"), ("10.5"))] [(("vcc"), ("abc"))] [(("LongSp"), ("2"))]
    [(("g0"), PyVal.float (mkRat 21 2)), (("vcc"), PyVal.str ("abc")),
      (("longsp"), PyVal.float (mkRat 2 1))]
    (by decide) (by decide) (("LongSp"), ("2")) (by decide)

/-! Serial-listener decode lemmas. -/

theorem char_ofNat_ne_crlf (v : Nat) (h32 : 32 ≤ v) :
    Char.ofNat v ≠ '\n' ∧ Char.ofNat v ≠ '\r' := by
  by_cases hv : v.isValidChar
  · have htn : (Char.ofNat v).toNat = v := by
      simp [Char.ofNat, hv, Char.ofNatAux, Char.toNat, UInt32.toNat, BitVec.toNat_ofNatLt]
    constructor <;> intro he <;> rw [he] at htn <;> simp at htn <;> omega
  · have hz : Char.ofNat v = Char.ofNat 0 := by
      simp [Char.ofNat, hv]
      decide
    rw [hz]
    constructor <;> decide

theorem two_byte_value_ge (b b2 : Nat) (h2 : (0xC2 ≤ b && b ≤ 0xDF) = true)
    (_h3 : isCont b2 = true) : 128 ≤ (b - 0xC0) * 0x40 + (b2 - 0x80) := by
  simp only [Bool.and_eq_true, decide_eq_true_eq] at h2
  have hm : 2 * 0x40 ≤ (b - 0xC0) * 0x40 := Nat.mul_le_mul_right _ (by omega)
  omega

theorem three_byte_value_ge (b b2 b3 : Nat) (hb : (0xE0 ≤ b && b ≤ 0xEF) = true)
    (h2 : cont3 b b2 = true) (_h3 : isCont b3 = true) :
    128 ≤ (b - 0xE0) * 0x1000 + (b2 - 0x80) * 0x40 + (b3 - 0x80) := by
  simp only [Bool.and_eq_true, decide_eq_true_eq] at hb
  unfold cont3 at h2
  by_cases hE0 : b = 0xE0
  · rw [if_pos hE0] at h2
    simp only [Bool.and_eq_true, decide_eq_true_eq] at h2
    subst hE0
    omega
  · rw [if_neg hE0] at h2
    have hm : 1 * 0x1000 ≤ (b - 0xE0) * 0x1000 := Nat.mul_le_mul_right _ (by omega)
    omega

theorem four_byte_value_ge (b b2 b3 b4 : Nat) (hb : (0xF0 ≤ b && b ≤ 0xF4) = true)
    (h2 : cont4 b b2 = true) (_h3 : isCont b3 = true) (_h4 : isCont b4 = true) :
    128 ≤ (b - 0xF0) * 0x40000 + (b2 - 0x80) * 0x1000 + (b3 - 0x80) * 0x40 + (b4 - 0x80) := by
  simp only [Bool.and_eq_true, decide_eq_true_eq] at hb
  unfold cont4 at h2
  by_cases hF0 : b = 0xF0
  · rw [if_pos hF0] at h2
    simp only [Bool.and_eq_true, decide_eq_true_eq] at h2
    subst hF0
    have hm : 0x10 * 0x1000 ≤ (b2 - 0x80) * 0x1000 := Nat.mul_le_mul_right _ (by omega)
    omega
  · rw [if_neg hF0] at h2
    have hm : 1 * 0x40000 ≤ (b - 0xF0) * 0x40000 := Nat.mul_le_mul_right _ (by omega)
    omega

theorem utf8IgnoreAux_no_crlf :
    ∀ (fuel : Nat) (bs : List Nat), (∀ b ∈ bs, ¬ b < 32) →
      ∀ c ∈ utf8IgnoreAux fuel bs, c ≠ '\n' ∧ c ≠ '\r' := by
  intro fuel
  induction fuel with
  | zero =>
    intro bs _ c hc
    simp [utf8IgnoreAux] at hc
  | succ fuel ih =>
    intro bs hbs c hc
    cases bs with
    | nil => simp [utf8IgnoreAux] at hc
    | cons b rest =>
      have hb : ¬ b < 32 := hbs b (List.mem_cons_self b rest)
      have hrest : ∀ x ∈ rest, ¬ x < 32 := fun x hx => hbs x (List.mem_cons_of_mem b hx)
      simp only [utf8IgnoreAux] at hc
      by_cases h1 : b < 0x80
      · rw [if_pos h1] at hc
        rcases List.mem_cons.mp hc with hceq | hc'
        · rw [hceq]
          exact char_ofNat_ne_crlf b (by omega)
        · exact ih rest hrest c hc'
      · rw [if_neg h1] at hc
        by_cases h2 : (0xC2 ≤ b && b ≤ 0xDF) = true
        · rw [if_pos h2] at hc
          cases rest with
          | nil => simp at hc
          | cons b2 rest2 =>
            dsimp only at hc
            have hrest2 : ∀ x ∈ rest2, ¬ x < 32 :=
              fun x hx => hrest x (List.mem_cons_of_mem b2 hx)
            by_cases h3 : isCont b2 = true
            · rw [if_pos h3] at hc
              rcases List.mem_cons.mp hc with hceq | hc'
              · rw [hceq]
                exact char_ofNat_ne_crlf _ (by
                  have := two_byte_value_ge b b2 h2 h3
                  omega)
              · exact ih rest2 hrest2 c hc'
            · rw [if_neg h3] at hc
              exact ih (b2 :: rest2) hrest c hc
        · rw [if_neg h2] at hc
          by_cases h4 : (0xE0 ≤ b && b ≤ 0xEF) = true
          · rw [if_pos h4] at hc
            cases rest with
            | nil => simp at hc
            | cons b2 rest2 =>
              cases rest2 with
              | nil => exact ih [b2] (fun x hx => hrest x hx) c hc
              | cons b3 rest3 =>
                dsimp only at hc
                have hrest3 : ∀ x ∈ rest3, ¬ x < 32 := fun x hx =>
                  hrest x (List.mem_cons_of_mem b2 (List.mem_cons_of_mem b3 hx))
                by_cases h5 : (cont3 b b2 && isCont b3) = true
                · rw [if_pos h5] at hc
                  simp only [Bool.and_eq_true] at h5
                  rcases List.mem_cons.mp hc with hceq | hc'
                  · rw [hceq]
                    exact char_ofNat_ne_crlf _ (by
                      have := three_byte_value_ge b b2 b3 h4 h5.1 h5.2
                      omega)
                  · exact ih rest3 hrest3 c hc'
                · rw [if_neg h5] at hc
                  exact ih (b2 :: b3 :: rest3) hrest c hc
          · rw [if_neg h4] at hc
            by_cases h6 : (0xF0 ≤ b && b ≤ 0xF4) = true
            · rw [if_pos h6] at hc
              cases rest with
              | nil => simp at hc
              | cons b2 rest2 =>
                cases rest2 with
                | nil => exact ih [b2] (fun x hx => hrest x hx) c hc
                | cons b3 rest3 =>
                  cases rest3 with
                  | nil =>
                    exact ih [b2, b3] (fun x hx => hrest x hx) c hc
                  | cons b4 rest4 =>
                    dsimp only at hc
                    have hrest4 : ∀ x ∈ rest4, ¬ x < 32 := fun x hx =>
                      hrest x (List.mem_cons_of_mem b2 (List.mem_cons_of_mem b3
                        (List.mem_cons_of_mem b4 hx)))
                    by_cases h7 : (cont4 b b2 && isCont b3 && isCont b4) = true
                    · rw [if_pos h7] at hc
                      simp only [Bool.and_eq_true] at h7
                      rcases List.mem_cons.mp hc with hceq | hc'
                      · rw [hceq]
                        exact char_ofNat_ne_crlf _ (by
                          have := four_byte_value_ge b b2 b3 b4 h6 h7.1.1 h7.1.2 h7.2
                          omega)
                      · exact ih rest4 hrest4 c hc'
                    · rw [if_neg h7] at hc
                      exact ih (b2 :: b3 :: b4 :: rest4) hrest c hc
            · rw [if_neg h6] at hc
              exact ih rest hrest c hc

theorem mem_of_mem_dropWhile {α : Type} (p : α → Bool) :
    ∀ (l : List α) (a : α), a ∈ l.dropWhile p → a ∈ l := by
  intro l
  induction l with
  | nil =>
    intro a h
    simp [List.dropWhile] at h
  | cons x xs ih =>
    intro a h
    by_cases hx : p x = true
    · rw [List.dropWhile_cons_of_pos hx] at h
      exact List.mem_cons_of_mem _ (ih a h)
    · rw [List.dropWhile_cons_of_neg hx] at h
      exact h

theorem mem_of_mem_stripChars (cs set : List Char) (c : Char)
    (h : c ∈ stripChars cs set) : c ∈ cs := by
  unfold stripChars at h
  rw [List.mem_reverse] at h
  have h1 := mem_of_mem_dropWhile _ _ _ h
  rw [List.mem_reverse] at h1
  exact mem_of_mem_dropWhile _ _ _ h1

/-- Claim C9: every line the serial listener enqueues is a non-empty text
string containing no line-feed or carriage-return character: byte values in
`[0, 31]` (which include CR and LF) and 255 are removed before UTF-8 decoding
with undecodable sequences ignored (which never produces a character below
`0x80` from a multi-byte sequence), and `listen` skips absent or empty decode
results. -/
theorem listener_enqueue_clean (raw : RawLine) (s : String)
    (h : listenStep raw = some s) :
    s ≠ ("") ∧ ('\n') ∉ s.data ∧ ('\r') ∉ s.data := by
  cases raw with
  | emptyStr => simp [listenStep, RawLine.toPyInput, decode_bytearr] at h
  | bytes bs =>
    simp only [listenStep, RawLine.toPyInput, decode_bytearr] at h
    by_cases hs : decodeBytes bs = ("")
    · rw [if_pos hs] at h
      cases h
    · rw [if_neg hs] at h
      cases h
      have hfilter : ∀ b ∈ bs.filter (fun c => decide (c ∉ ILLEGAL_CHARS)), ¬ b < 32 := by
        intro b hbmem
        rcases List.mem_filter.mp hbmem with ⟨_, hbp⟩
        have hnotin := of_decide_eq_true hbp
        intro hlt
        exact hnotin (by
          simp only [ILLEGAL_CHARS, List.mem_append, List.mem_range]
          exact Or.inl hlt)
      refine ⟨hs, ?_, ?_⟩ <;> intro hmem
      · have hc : ('\n') ∈ utf8Ignore (bs.filter (fun c => decide (c ∉ ILLEGAL_CHARS))) :=
          mem_of_mem_stripChars _ _ _ (by simpa [decodeBytes] using hmem)
        exact (utf8IgnoreAux_no_crlf _ _ hfilter ('\n') hc).1 rfl
      · have hc : ('\r') ∈ utf8Ignore (bs.filter (fun c => decide (c ∉ ILLEGAL_CHARS))) :=
          mem_of_mem_stripChars _ _ _ (by simpa [decodeBytes] using hmem)
        exact (utf8IgnoreAux_no_crlf _ _ hfilter ('\r') hc).2 rfl

/-- Witness for C9 at a concrete serial byte line. -/
theorem listener_enqueue_clean_witness :
    ("Hi" : String) ≠ ("") ∧ ('\n') ∉ ("Hi" : String).data ∧ ('\r') ∉ ("Hi" : String).data :=
  listener_enqueue_clean (RawLine.bytes [72, 105, 13, 10]) ("Hi") (by decide)

end GravCollector
